import Mathlib

/-!
Shallow embedding of the "build your own bundle" admin app's aggregation code.

Two source modules are embedded:

* the analytics page (`getDateRange`, `insertTopCustomer`, `fetchAllCustomers`,
  `fetchOrdersInRange`) in namespace `Analytics`;
* the report page (`escapeCsv`, `buildBuckets`, `sortCustomers`, the loader's
  customer filter) in namespace `Report`.

Modelling conventions:

* Instants are integers (seconds since an arbitrary epoch); an ISO calendar
  day is an integer day index, so midnight of day `d` is `d * 86400` and
  `23:59:59` of day `d` is `d * 86400 + 86399`.  Fields the code stores as ISO
  strings and compares with `new Date(...)` or `localeCompare` (both orders
  agree on ISO-8601 strings) are modelled directly as their parsed instants.
* A JS value that can be `null`/`undefined` is an `Option`.  The idiom
  `x || y` on strings falls through both on `null` and on the empty string;
  `strOr` captures that.  Money amounts are modelled as the integer value
  produced by `Number(amount || 0)`.
* A cursor-paginated upstream is modelled as the list of page responses the
  server would produce in order; the opaque `endCursor` is not represented
  because the code only echoes it back to the server.  A thrown JS exception
  is `Except.error`.
* JS `Array.prototype.sort` is stable in all modern engines; for a comparator
  inducing a total preorder a stable sort's output is uniquely determined, so
  it is modelled by a stable insertion sort over the relation
  "comparator result ≤ 0".
-/

namespace BYOB

/-- JS `a || b` for a possibly-null string: `b` when `a` is `null`/`undefined`
or the empty string (both falsy). -/
def strOr (a : Option String) (b : String) : String :=
  match a with
  | none => b
  | some s => if s = "" then b else s

/-- Insert `x` into a sorted list, after every element that may precede it —
the insertion step of a stable insertion sort. -/
def insertLe {α : Type} (le : α → α → Bool) (x : α) : List α → List α
  | [] => [x]
  | y :: ys => if le y x then y :: insertLe le x ys else x :: y :: ys

/-- Stable sort by the relation "may precede" (JS comparator result ≤ 0):
the unique stable reordering that is pairwise `le`-ordered. -/
def stableSort {α : Type} (le : α → α → Bool) (l : List α) : List α :=
  l.foldl (fun acc x => insertLe le x acc) []

namespace Analytics

/-- Source constant `DEFAULT_RANGE_DAYS = 30`. -/
def DEFAULT_RANGE_DAYS : Int := 30

/-- Source constant `MAX_CUSTOMERS = 2000`. -/
def MAX_CUSTOMERS : Nat := 2000

/-- Source constant `MAX_ORDERS = 2000`. -/
def MAX_ORDERS : Nat := 2000

/-- Seconds in a day, for converting a day index to an instant. -/
def secondsPerDay : Int := 86400

/-- A `start`/`end` query parameter as `parseDateParam` sees it: absent (or
empty, both falsy), present but unparseable (`NaN` date), or a valid ISO date
which parses to midnight UTC of day `day`. -/
inductive DateParam where
  | missing
  | invalid
  | valid (day : Int)
deriving DecidableEq, Repr

/-- Source `parseDateParam(value, fallback)`: the fallback day on a missing or
invalid value, otherwise the parsed day (a `Date` at 00:00:00 UTC). -/
def parseDateParam : DateParam → Int → Int
  | .missing, fallback => fallback
  | .invalid, fallback => fallback
  | .valid d, _ => d

/-- Source `getDateRange(url)` with today's UTC day index made explicit.
`endDefault` is today at midnight UTC, `startDefault` is 29 days earlier;
the parsed start is snapped to 00:00:00 and the parsed end to 23:59:59 of its
day; when the snapped start exceeds the snapped end the *raw* default pair is
returned (both at midnight), otherwise the snapped pair. -/
def getDateRange (today : Int) (startP endP : DateParam) : Int × Int :=
  let endDefault := today
  let startDefault := today - (DEFAULT_RANGE_DAYS - 1)
  let startDay := parseDateParam startP startDefault
  let endDay := parseDateParam endP endDefault
  let normalizedStart := startDay * secondsPerDay
  let normalizedEnd := endDay * secondsPerDay + 86399
  if normalizedEnd < normalizedStart then
    (startDefault * secondsPerDay, endDefault * secondsPerDay)
  else
    (normalizedStart, normalizedEnd)

/-- An entry of the running top-customers list. -/
structure TopCustomer where
  id : String
  name : String
  email : String
  totalSpent : Int
  ordersCount : Int
deriving DecidableEq, Repr

/-- The comparator `(a, b) => b.totalSpent - a.totalSpent` as the relation
"`a` may precede `b`", i.e. comparator value ≤ 0. -/
def spentDescLe (a b : TopCustomer) : Bool :=
  decide (b.totalSpent ≤ a.totalSpent)

/-- Source `insertTopCustomer(list, customer)`: append, re-sort descending by spend,
keep the first 10. -/
def insertTopCustomer (list : List TopCustomer) (customer : TopCustomer) :
    List TopCustomer :=
  (stableSort spentDescLe (list ++ [customer])).take 10

/-- Field `amountSpent` as the code consumes it: the numeric value of the amount
string and the currency code. -/
structure MoneyV where
  amount : Int
  currencyCode : String
deriving DecidableEq, Repr

/-- A customer node from the upstream API.  `firstOrderCreatedAt` models
`customer.orders?.nodes?.[0]?.createdAt || null`: `none` whenever the chain
hits a missing field, an empty node list, or an empty (falsy) string. -/
structure CustomerNode where
  id : String
  displayName : Option String
  email : Option String
  numberOfOrders : Option Int
  amountSpent : Option MoneyV
  firstOrderCreatedAt : Option Int
deriving DecidableEq, Repr

/-- Coercion `Number(customer.amountSpent?.amount || 0)`. -/
def amountOf (c : CustomerNode) : Int :=
  match c.amountSpent with
  | none => 0
  | some m => m.amount

/-- Coercion `customer.numberOfOrders || 0`. -/
def ordersCountOf (c : CustomerNode) : Int :=
  c.numberOfOrders.getD 0

/-- Coercion `customer.displayName || customer.email || "Unknown"`. -/
def nameOf (c : CustomerNode) : String :=
  strOr c.displayName (strOr c.email "Unknown")

/-- Coercion `customer.email || "-"`. -/
def emailOf (c : CustomerNode) : String :=
  strOr c.email "-"

/-- Statement `if (customer.amountSpent?.currencyCode) currencyCode = ...;` — updated
only when the code is present and non-empty (truthy). -/
def updateCurrency (cur : String) (c : CustomerNode) : String :=
  match c.amountSpent with
  | none => cur
  | some m => if m.currencyCode = "" then cur else m.currencyCode

/-- One upstream response page of the customers query.  `errors` is the
`json.errors` field: `none` when absent, `some l` when present (possibly an
empty array, which is still truthy in JS). -/
structure CustomerPage where
  errors : Option (List String)
  nodes : List CustomerNode
  hasNextPage : Bool
deriving DecidableEq, Repr

/-- The mutable locals of `fetchAllCustomers` while the loop runs. -/
structure FetchState where
  hasNextPage : Bool
  customersCount : Nat
  totalClv : Int
  topCustomers : List TopCustomer
  currencyCode : String
  truncated : Bool
deriving DecidableEq, Repr

/-- The body of `for (const customer of customers)`. -/
def processCustomer (s : FetchState) (c : CustomerNode) : FetchState :=
  { s with
    currencyCode := updateCurrency s.currencyCode c
    customersCount := s.customersCount + 1
    totalClv := s.totalClv + amountOf c
    topCustomers := insertTopCustomer s.topCustomers
      { id := c.id, name := nameOf c, email := emailOf c,
        totalSpent := amountOf c, ordersCount := ordersCountOf c } }

/-- One successful loop iteration after the error check: process every node
of the page, adopt the page's `hasNextPage`, and set `truncated` when the cap
is reached with more pages remaining. -/
def stepPage (s : FetchState) (p : CustomerPage) : FetchState :=
  let s1 := p.nodes.foldl processCustomer s
  { s1 with
    hasNextPage := p.hasNextPage
    truncated :=
      if MAX_CUSTOMERS ≤ s1.customersCount ∧ p.hasNextPage then true
      else s1.truncated }

/-- The value `fetchAllCustomers` returns. -/
structure FetchResult where
  customersCount : Nat
  totalClv : Int
  averageClv : Rat
  currencyCode : String
  topCustomers : List TopCustomer
  truncated : Bool
deriving DecidableEq, Repr

/-- The return statement of `fetchAllCustomers`:
`averageClv: customersCount ? totalClv / customersCount : 0`. -/
def finalize (s : FetchState) : FetchResult :=
  { customersCount := s.customersCount
    totalClv := s.totalClv
    averageClv :=
      if s.customersCount ≠ 0 then (s.totalClv : Rat) / (s.customersCount : Rat)
      else 0
    currencyCode := s.currencyCode
    topCustomers := s.topCustomers
    truncated := s.truncated }

/-- The `while (hasNextPage && customersCount < MAX_CUSTOMERS)` loop over the
stream of upstream pages.  `if (json.errors) throw ...` fires whenever the
`errors` field is present — an empty array is truthy in JS. -/
def runCustomerPages : List CustomerPage → FetchState → Except String FetchResult
  | [], s => .ok (finalize s)
  | p :: rest, s =>
    if s.hasNextPage ∧ s.customersCount < MAX_CUSTOMERS then
      match p.errors with
      | some errs => .error (String.intercalate "," errs)
      | none => runCustomerPages rest (stepPage s p)
    else .ok (finalize s)

/-- The initial values of the loop locals. -/
def initFetchState : FetchState :=
  { hasNextPage := true, customersCount := 0, totalClv := 0,
    topCustomers := [], currencyCode := "USD", truncated := false }

/-- Source `fetchAllCustomers(admin)`, with the upstream's successive page responses
made explicit. -/
def fetchAllCustomers (pages : List CustomerPage) : Except String FetchResult :=
  runCustomerPages pages initFetchState

/-- Observer: the customer nodes the loop actually processes (all nodes of
every page consumed before the loop guard or an error stops it). -/
def processedCustomers : List CustomerPage → FetchState → List CustomerNode
  | [], _ => []
  | p :: rest, s =>
    if s.hasNextPage ∧ s.customersCount < MAX_CUSTOMERS then
      match p.errors with
      | some _ => []
      | none => p.nodes ++ processedCustomers rest (stepPage s p)
    else []

/-- The non-empty currency code a customer carries, if any. -/
def carriedCurrency (c : CustomerNode) : Option String :=
  match c.amountSpent with
  | none => none
  | some m => if m.currencyCode = "" then none else some m.currencyCode

/-- An order node of the orders-in-range query: its creation instant and its
(possibly absent) customer. -/
structure OrderNode where
  createdAt : Int
  customer : Option CustomerNode
deriving DecidableEq, Repr

/-- An entry of the `newCustomersMap`. -/
structure NewCustomer where
  id : String
  name : String
  email : String
  firstOrderDate : Int
  totalSpent : Int
  ordersCount : Int
deriving DecidableEq, Repr

/-- The mutable locals of `fetchOrdersInRange`; `newCustomers` is the
insertion-ordered contents of the JS `Map`. -/
structure ScanState where
  hasNextPage : Bool
  ordersCount : Nat
  truncated : Bool
  usedFallback : Bool
  newCustomers : List NewCustomer
deriving DecidableEq, Repr

/-- Lookup `newCustomersMap.has(id)`. -/
def hasNewCustomer (l : List NewCustomer) (id : String) : Bool :=
  l.any (fun e => e.id = id)

/-- Insertion `if (!newCustomersMap.has(id)) newCustomersMap.set(id, e)` — first
occurrence wins. -/
def addNewCustomer (s : ScanState) (e : NewCustomer) : ScanState :=
  if hasNewCustomer s.newCustomers e.id then s
  else { s with newCustomers := s.newCustomers ++ [e] }

/-- The body of `for (const order of orders)`: count the order; skip a missing
customer or a falsy id; a resolvable first-order instant inside `[start, end]`
makes the customer new with that instant; otherwise, a lifetime order count of
exactly 1 triggers the fallback — the flag is set and the current order's
creation instant becomes the first-order date. -/
def processOrder (startT endT : Int) (s : ScanState) (o : OrderNode) : ScanState :=
  let s := { s with ordersCount := s.ordersCount + 1 }
  match o.customer with
  | none => s
  | some c =>
    if c.id = "" then s
    else
      match c.firstOrderCreatedAt with
      | some d =>
        if startT ≤ d ∧ d ≤ endT then
          addNewCustomer s
            { id := c.id, name := nameOf c, email := emailOf c,
              firstOrderDate := d, totalSpent := amountOf c,
              ordersCount := ordersCountOf c }
        else s
      | none =>
        if ordersCountOf c = 1 then
          addNewCustomer { s with usedFallback := true }
            { id := c.id, name := nameOf c, email := emailOf c,
              firstOrderDate := o.createdAt, totalSpent := amountOf c,
              ordersCount := ordersCountOf c }
        else s

/-- One upstream response page of the orders query. -/
structure OrderPage where
  errors : Option (List String)
  nodes : List OrderNode
  hasNextPage : Bool
deriving DecidableEq, Repr

/-- The value `fetchOrdersInRange` returns. -/
structure ScanResult where
  newCustomers : List NewCustomer
  truncated : Bool
  usedFallback : Bool
deriving DecidableEq, Repr

/-- Comparator `(a, b) => a.firstOrderDate.localeCompare(b.firstOrderDate)` as "may
precede": on ISO-8601 strings this is the instant order. -/
def firstOrderAscLe (a b : NewCustomer) : Bool :=
  decide (a.firstOrderDate ≤ b.firstOrderDate)

/-- One successful loop iteration of the orders loop. -/
def stepOrderPage (startT endT : Int) (s : ScanState) (p : OrderPage) : ScanState :=
  let s1 := p.nodes.foldl (processOrder startT endT) s
  { s1 with
    hasNextPage := p.hasNextPage
    truncated :=
      if MAX_ORDERS ≤ s1.ordersCount ∧ p.hasNextPage then true
      else s1.truncated }

/-- The return statement of `fetchOrdersInRange`: the map's values sorted by
first-order date ascending. -/
def finishScan (s : ScanState) : ScanResult :=
  { newCustomers := stableSort firstOrderAscLe s.newCustomers
    truncated := s.truncated
    usedFallback := s.usedFallback }

/-- The `while (hasNextPage && ordersCount < MAX_ORDERS)` loop of
`fetchOrdersInRange`. -/
def runOrderPages (startT endT : Int) :
    List OrderPage → ScanState → Except String ScanResult
  | [], s => .ok (finishScan s)
  | p :: rest, s =>
    if s.hasNextPage ∧ s.ordersCount < MAX_ORDERS then
      match p.errors with
      | some errs => .error (String.intercalate "," errs)
      | none => runOrderPages startT endT rest (stepOrderPage startT endT s p)
    else .ok (finishScan s)

/-- The initial values of the orders loop locals. -/
def initScanState : ScanState :=
  { hasNextPage := true, ordersCount := 0, truncated := false,
    usedFallback := false, newCustomers := [] }

/-- Source `fetchOrdersInRange(admin, start, end)` over an explicit page stream. -/
def fetchOrdersInRange (startT endT : Int) (pages : List OrderPage) :
    Except String ScanResult :=
  runOrderPages startT endT pages initScanState

/-- Descending by spend — the order the top-customers list is kept in. -/
def spendDescOrder (a b : TopCustomer) : Prop :=
  b.totalSpent ≤ a.totalSpent

/-- A concrete customer exercising the new-customer fallback: one lifetime
order, no resolvable first-order date. -/
def sampleFallbackCustomer : CustomerNode :=
  { id := "c1", displayName := some "Ada", email := none,
    numberOfOrders := some 1, amountSpent := none, firstOrderCreatedAt := none }

/-- A concrete order at instant 5 owned by `sampleFallbackCustomer`. -/
def sampleFallbackOrder : OrderNode :=
  { createdAt := 5, customer := some sampleFallbackCustomer }

/-- A one-page stream with one customer carrying currency `EUR`. -/
def samplePageEUR : CustomerPage :=
  { errors := none,
    nodes := [{ id := "g1", displayName := none, email := none,
                numberOfOrders := none,
                amountSpent := some { amount := 7, currencyCode := "EUR" },
                firstOrderCreatedAt := none }],
    hasNextPage := false }

/-- The fetch result for `samplePageEUR`. -/
def sampleResultEUR : FetchResult :=
  { customersCount := 1, totalClv := 7,
    averageClv := ((7 : Int) : Rat) / ((1 : Nat) : Rat), currencyCode := "EUR",
    topCustomers := [{ id := "g1", name := "Unknown", email := "-",
                       totalSpent := 7, ordersCount := 0 }],
    truncated := false }

/-- A one-page stream with two customers spending 4 and 5, no currency. -/
def samplePageHalf : CustomerPage :=
  { errors := none,
    nodes :=
      [{ id := "a", displayName := none, email := none, numberOfOrders := none,
         amountSpent := some { amount := 4, currencyCode := "" },
         firstOrderCreatedAt := none },
       { id := "b", displayName := none, email := none, numberOfOrders := none,
         amountSpent := some { amount := 5, currencyCode := "" },
         firstOrderCreatedAt := none }],
    hasNextPage := false }

/-- The fetch result for `samplePageHalf`. -/
def sampleResultHalf : FetchResult :=
  { customersCount := 2, totalClv := 9,
    averageClv := ((9 : Int) : Rat) / ((2 : Nat) : Rat),
    currencyCode := "USD",
    topCustomers :=
      [{ id := "b", name := "Unknown", email := "-", totalSpent := 5,
         ordersCount := 0 },
       { id := "a", name := "Unknown", email := "-", totalSpent := 4,
         ordersCount := 0 }],
    truncated := false }

end Analytics

namespace Report

/-- The test `/[",\n]/.test(text)` on one character. -/
def isBadChar (c : Char) : Bool :=
  c = ',' || c = '"' || c = '\n'

/-- Replacement `text.replace(/"/g, "\"\"")` on the character list. -/
def doubleQuotes : List Char → List Char
  | [] => []
  | c :: rest =>
    if c = '"' then '"' :: '"' :: doubleQuotes rest
    else c :: doubleQuotes rest

/-- Source `escapeCsv(value)` applied to an already-stringified value: quote and
double internal quotes when the text contains a comma, quote or newline,
otherwise return it verbatim. -/
def escapeCsv (l : List Char) : List Char :=
  if l.any isBadChar then '"' :: (doubleQuotes l ++ ['"']) else l

/-- Collapse each doubled quote back to a single quote. -/
def undoubleQuotes : List Char → List Char
  | [] => []
  | [c] => [c]
  | c :: d :: rest =>
    if c = '"' ∧ d = '"' then '"' :: undoubleQuotes rest
    else c :: undoubleQuotes (d :: rest)

/-- The standard CSV field decoder the round-trip property re-parses with:
strip a surrounding quote pair and un-double internal quotes; any other field
is taken verbatim. -/
def unescapeCsv (l : List Char) : List Char :=
  if 2 ≤ l.length ∧ l.head? = some '"' ∧ l.getLast? = some '"' then
    undoubleQuotes (l.drop 1).dropLast
  else l

/-- One histogram bucket. -/
structure Bucket where
  label : String
  count : Nat
deriving DecidableEq, Repr

/-- The bucket label: `` `${edge}+` `` for the last edge, otherwise
`` `${edge}-${edges[index + 1] - 1}` ``. -/
def bucketLabel (edges : List Int) (i : Nat) (edge : Int) : String :=
  if i = edges.length - 1 then toString edge ++ "+"
  else toString edge ++ "-" ++ toString (edges.getD (i + 1) 0 - 1)

/-- Call `edges.findIndex((edge, i) => ...)` for one value: the first index whose
predicate holds — `value >= edge && value < edges[i+1]` for a non-final edge,
`value >= edge` for the final one — or `none` for JS `-1`. -/
def findEdgeIdx (v : Int) : List Int → Option Nat
  | [] => none
  | [e] => if e ≤ v then some 0 else none
  | e :: e2 :: rest =>
    if e ≤ v ∧ v < e2 then some 0
    else (findEdgeIdx v (e2 :: rest)).map (· + 1)

/-- In-place `buckets[i].count += 1`. -/
def incAt : List Bucket → Nat → List Bucket
  | [], _ => []
  | b :: rest, 0 => { b with count := b.count + 1 } :: rest
  | b :: rest, n + 1 => b :: incAt rest n

/-- One iteration of `for (const value of values)`: the fallback index for a
failed `findIndex` is `buckets.length - 1` as a JS number (so `-1` on an empty
bucket array), and indexing outside the array makes `undefined.count += 1`
throw a `TypeError`, modelled as `none`. -/
def tallyValue (edges : List Int) (buckets : List Bucket) (v : Int) :
    Option (List Bucket) :=
  let bucketIndex : Int :=
    match findEdgeIdx v edges with
    | none => (buckets.length : Int) - 1
    | some i => (i : Int)
  if 0 ≤ bucketIndex ∧ bucketIndex.toNat < buckets.length then
    some (incAt buckets bucketIndex.toNat)
  else none

/-- Source `buildBuckets(values, edges)`. -/
def buildBuckets (values edges : List Int) : Option (List Bucket) :=
  let buckets :=
    edges.enum.map (fun p => ({ label := bucketLabel edges p.1 p.2, count := 0 } : Bucket))
  values.foldlM (tallyValue edges) buckets

/-- A row of the report's in-memory customer set, after the loader's
field coercions (name/email fallbacks, tags lower-cased, dates parsed). -/
structure ReportCustomer where
  id : List Char
  name : List Char
  email : List Char
  totalSpent : Int
  ordersCount : Int
  createdAt : Option Int
  firstOrderDate : Option Int
  tags : List (List Char)
deriving DecidableEq, Repr

/-- The four values `parseSort` accepts. -/
inductive SortKey where
  | ltv_desc
  | ltv_asc
  | orders_desc
  | orders_asc
deriving DecidableEq, Repr

/-- The comparator `sortCustomers` installs for each key, e.g.
`b.totalSpent - a.totalSpent || b.ordersCount - a.ordersCount` for
`ltv_desc` (`x || y` on numbers: `y` exactly when `x` is `0`). -/
def sortComparator : SortKey → ReportCustomer → ReportCustomer → Int
  | .ltv_asc, a, b =>
    if a.totalSpent - b.totalSpent ≠ 0 then a.totalSpent - b.totalSpent
    else a.ordersCount - b.ordersCount
  | .ltv_desc, a, b =>
    if b.totalSpent - a.totalSpent ≠ 0 then b.totalSpent - a.totalSpent
    else b.ordersCount - a.ordersCount
  | .orders_asc, a, b =>
    if a.ordersCount - b.ordersCount ≠ 0 then a.ordersCount - b.ordersCount
    else a.totalSpent - b.totalSpent
  | .orders_desc, a, b =>
    if b.ordersCount - a.ordersCount ≠ 0 then b.ordersCount - a.ordersCount
    else b.totalSpent - a.totalSpent

/-- Relation "`a` may precede `b`" for a JS comparator sort: comparator value ≤ 0. -/
def sortLe (k : SortKey) (a b : ReportCustomer) : Bool :=
  decide (sortComparator k a b ≤ 0)

/-- Source `sortCustomers(customers, sort)`: copy, then a stable comparator sort. -/
def sortCustomers (customers : List ReportCustomer) (sort : SortKey) :
    List ReportCustomer :=
  stableSort (sortLe sort) customers

/-- Parameter `tags_mode`. -/
inductive TagsMode where
  | any
  | all
deriving DecidableEq, Repr

/-- Lower-casing `toLowerCase()`, character-wise. -/
def lowerL (l : List Char) : List Char :=
  l.map Char.toLower

/-- Whether `needle` starts `hay`. -/
def strStarts : List Char → List Char → Bool
  | [], _ => true
  | _ :: _, [] => false
  | c :: cs, d :: ds => c = d && strStarts cs ds

/-- Substring test `hay.includes(needle)`. -/
def strIncludes : List Char → List Char → Bool
  | hay, needle =>
    match hay with
    | [] => strStarts needle []
    | _ :: t => strStarts needle hay || strIncludes t needle

/-- The loader's parsed filter parameters, after `normalizeQuery`,
`parseOptionalNumber`, `parseTags`, `parseTagsMode` and `parseDate` have run:
an absent or malformed numeric/date parameter is `none`, the query is already
trimmed and lower-cased, the tag list already split and lower-cased, and each
date bound is its snapped instant (start of day or 23:59:59). -/
structure FilterParams where
  query : List Char
  minOrders : Option Int
  maxOrders : Option Int
  minSpent : Option Int
  maxSpent : Option Int
  tagsList : List (List Char)
  tagsMode : TagsMode
  createdStart : Option Int
  createdEnd : Option Int
  firstOrderStart : Option Int
  firstOrderEnd : Option Int
deriving DecidableEq, Repr

/-- The predicate of `customers.filter((customer) => ...)` in the report
loader: each early `return false` becomes a conjunct. -/
def passesFilter (p : FilterParams) (c : ReportCustomer) : Bool :=
  (p.query.isEmpty ||
    (strIncludes (lowerL c.name) p.query || strIncludes (lowerL c.email) p.query)) &&
  (match p.minOrders with
   | none => true
   | some v => !decide (c.ordersCount < v)) &&
  (match p.maxOrders with
   | none => true
   | some v => !decide (v < c.ordersCount)) &&
  (match p.minSpent with
   | none => true
   | some v => !decide (c.totalSpent < v)) &&
  (match p.maxSpent with
   | none => true
   | some v => !decide (v < c.totalSpent)) &&
  (p.tagsList.isEmpty ||
    (match p.tagsMode with
     | .all => p.tagsList.all (fun t => decide (t ∈ c.tags))
     | .any => p.tagsList.any (fun t => decide (t ∈ c.tags)))) &&
  ((p.createdStart.isNone && p.createdEnd.isNone) ||
    (match c.createdAt with
     | none => false
     | some t =>
       (match p.createdStart with
        | none => true
        | some s => !decide (t < s)) &&
       (match p.createdEnd with
        | none => true
        | some e => !decide (e < t)))) &&
  ((p.firstOrderStart.isNone && p.firstOrderEnd.isNone) ||
    (match c.firstOrderDate with
     | none => false
     | some t =>
       (match p.firstOrderStart with
        | none => true
        | some s => !decide (t < s)) &&
       (match p.firstOrderEnd with
        | none => true
        | some e => !decide (e < t))))

/-- The ordering each sort key requests: primary metric in the requested
direction, ties broken by the other metric in the same direction. -/
def keyOrder : SortKey → ReportCustomer → ReportCustomer → Prop
  | .ltv_desc, a, b =>
    b.totalSpent < a.totalSpent ∨
      (b.totalSpent = a.totalSpent ∧ b.ordersCount ≤ a.ordersCount)
  | .ltv_asc, a, b =>
    a.totalSpent < b.totalSpent ∨
      (a.totalSpent = b.totalSpent ∧ a.ordersCount ≤ b.ordersCount)
  | .orders_desc, a, b =>
    b.ordersCount < a.ordersCount ∨
      (b.ordersCount = a.ordersCount ∧ b.totalSpent ≤ a.totalSpent)
  | .orders_asc, a, b =>
    a.ordersCount < b.ordersCount ∨
      (a.ordersCount = b.ordersCount ∧ a.totalSpent ≤ b.totalSpent)

/-- A report customer with only the two sort metrics populated. -/
def plainCustomer (spent orders : Int) : ReportCustomer :=
  { id := [], name := [], email := [], totalSpent := spent,
    ordersCount := orders, createdAt := none, firstOrderDate := none,
    tags := [] }

/-- The spec's example field `O'Brien, Jr. "VIP"` (apostrophe written via its
code point). -/
def exampleName : List Char :=
  'O' :: Char.ofNat 39 :: "Brien, Jr. \"VIP\"".toList

/-- Its single quoted CSV field `"O'Brien, Jr. ""VIP"""`. -/
def exampleEscaped : List Char :=
  '"' :: 'O' :: Char.ofNat 39 :: "Brien, Jr. \"\"VIP\"\"\"".toList

/-- A filter requesting the single tag `v`. -/
def sampleTagParams : FilterParams :=
  { query := [], minOrders := none, maxOrders := none, minSpent := none,
    maxSpent := none, tagsList := [['v']], tagsMode := TagsMode.any,
    createdStart := none, createdEnd := none, firstOrderStart := none,
    firstOrderEnd := none }

/-- A customer tagged `v`. -/
def sampleTagCustomer : ReportCustomer :=
  { id := [], name := [], email := [], totalSpent := 0, ordersCount := 0,
    createdAt := none, firstOrderDate := none, tags := [['v']] }

end Report

end BYOB

open BYOB BYOB.Analytics BYOB.Report

/-- C1, counterexample: with today at day index 100, the valid-but-inverted
pair start = day 50, end = day 40 does not produce the same pair as two
missing parameters — the missing-parameter end is snapped to 23:59:59 while
the inverted-range fallback end stays at midnight. -/
theorem C1_counterexample :
    getDateRange 100 (.valid 50) (.valid 40) ≠
      getDateRange 100 .missing .missing := by
  decide

/-- C1 (amended): when both date parameters are valid and the snapped start
exceeds the snapped end, `getDateRange` returns the raw default pair — start
at midnight 29 days before today, end at midnight today — not the pair
returned when both parameters are missing, whose end is additionally snapped
to 23:59:59 of today. -/
theorem C1_invalid_range_reverts_to_raw_defaults (today sd ed : Int)
    (h : ed * secondsPerDay + 86399 < sd * secondsPerDay) :
    getDateRange today (.valid sd) (.valid ed) =
      ((today - 29) * secondsPerDay, today * secondsPerDay) ∧
    getDateRange today .missing .missing =
      ((today - 29) * secondsPerDay, today * secondsPerDay + 86399) := by
  simp only [getDateRange, parseDateParam, DEFAULT_RANGE_DAYS, secondsPerDay] at *
  constructor
  · rw [if_pos (by omega)]
    norm_num
  · rw [if_neg (by omega)]
    norm_num

/-- C1, witness for the amended theorem at today = 100, start day 50,
end day 40. -/
theorem C1_witness :
    getDateRange 100 (.valid 50) (.valid 40) =
      ((100 - 29) * secondsPerDay, 100 * secondsPerDay) ∧
    getDateRange 100 .missing .missing =
      ((100 - 29) * secondsPerDay, 100 * secondsPerDay + 86399) :=
  C1_invalid_range_reverts_to_raw_defaults 100 50 40 (by decide)

/-- Helper: a successful `findIndex` over the edges is within bounds. -/
theorem findEdgeIdx_lt_length (v : Int) :
    ∀ (edges : List Int) (i : Nat), findEdgeIdx v edges = some i → i < edges.length := by
  intro edges
  induction edges with
  | nil => intro i h; simp [findEdgeIdx] at h
  | cons e rest ih =>
    intro i h
    cases rest with
    | nil =>
      simp only [findEdgeIdx] at h
      split at h
      · cases h; simp
      · cases h
    | cons e2 rest2 =>
      simp only [findEdgeIdx] at h
      split at h
      · cases h; simp
      · cases hfe : findEdgeIdx v (e2 :: rest2) with
        | none => rw [hfe] at h; cases h
        | some j =>
          rw [hfe] at h
          simp only [Option.map_some'] at h
          cases h
          have := ih j hfe
          simp only [List.length_cons] at *
          omega

/-- Helper: `incAt` preserves the number of buckets. -/
theorem incAt_length :
    ∀ (bs : List Bucket) (i : Nat), (incAt bs i).length = bs.length := by
  intro bs
  induction bs with
  | nil => intro i; rfl
  | cons b rest ih => intro i; cases i <;> simp [incAt, ih]

/-- Helper: an in-range increment raises the count total by one. -/
theorem incAt_sum :
    ∀ (bs : List Bucket) (i : Nat), i < bs.length →
      ((incAt bs i).map (fun b => b.count)).sum = (bs.map (fun b => b.count)).sum + 1 := by
  intro bs
  induction bs with
  | nil => intro i h; simp at h
  | cons b rest ih =>
    intro i h
    cases i with
    | zero => simp [incAt]; omega
    | succ n =>
      simp only [incAt, List.map_cons, List.sum_cons]
      have := ih n (by simpa using h)
      omega

/-- Helper: with a non-empty edge list, tallying one value always succeeds
and raises the count total by one. -/
theorem tallyValue_spec (edges : List Int) (buckets : List Bucket) (v : Int)
    (hne : edges ≠ []) (hlen : buckets.length = edges.length) :
    ∃ bs, tallyValue edges buckets v = some bs ∧ bs.length = buckets.length ∧
      (bs.map (fun b => b.count)).sum = (buckets.map (fun b => b.count)).sum + 1 := by
  have hpos : 0 < buckets.length := by
    rw [hlen]
    cases edges with
    | nil => exact absurd rfl hne
    | cons a b => simp
  cases hfe : findEdgeIdx v edges with
  | none =>
    simp only [tallyValue, hfe]
    rw [if_pos (by constructor <;> omega)]
    refine ⟨_, rfl, incAt_length _ _, incAt_sum _ _ (by omega)⟩
  | some i =>
    have hi : i < edges.length := findEdgeIdx_lt_length v edges i hfe
    simp only [tallyValue, hfe]
    rw [if_pos (by constructor <;> omega)]
    refine ⟨_, rfl, incAt_length _ _, incAt_sum _ _ (by omega)⟩

/-- Helper: folding the tally over all values succeeds with a non-empty edge
list and adds the number of values to the count total. -/
theorem foldTally_spec (edges : List Int) (hne : edges ≠ []) :
    ∀ (values : List Int) (buckets : List Bucket), buckets.length = edges.length →
      ∃ bs, List.foldlM (tallyValue edges) buckets values = some bs ∧
        (bs.map (fun b => b.count)).sum =
          (buckets.map (fun b => b.count)).sum + values.length := by
  intro values
  induction values with
  | nil => intro buckets _; exact ⟨buckets, rfl, by simp⟩
  | cons v vs ih =>
    intro buckets hlen
    obtain ⟨bs1, h1, hl1, hs1⟩ := tallyValue_spec edges buckets v hne hlen
    obtain ⟨bs, h2, hs2⟩ := ih bs1 (hl1.trans hlen)
    refine ⟨bs, ?_, by simp only [List.length_cons]; omega⟩
    simp [List.foldlM_cons, h1, h2]

/-- C2 (amended): for every value list and every *non-empty* edge list,
`buildBuckets` returns buckets whose counts sum exactly to the number of
values; with an empty edge list it only survives an empty value list (an
empty bucket array, total 0), since any value then indexes `buckets[-1]` and
throws. -/
theorem C2_bucket_counts_sum_to_values_length :
    (∀ (values edges : List Int), edges ≠ [] →
      ∃ bs, buildBuckets values edges = some bs ∧
        (bs.map (fun b => b.count)).sum = values.length) ∧
    buildBuckets [] [] = some [] := by
  constructor
  · intro values edges hne
    unfold buildBuckets
    obtain ⟨bs, h, hs⟩ := foldTally_spec edges hne values
      (edges.enum.map (fun p => ({ label := bucketLabel edges p.1 p.2, count := 0 } : Bucket)))
      (by simp)
    refine ⟨bs, h, ?_⟩
    rw [hs]
    have hzero :
        (((edges.enum.map
          (fun p => ({ label := bucketLabel edges p.1 p.2, count := 0 } : Bucket))).map
            (fun b => b.count)).sum) = 0 := by
      rw [List.map_map]
      simp [Function.comp_def]
    omega
  · rfl

/-- C2, counterexample: on the empty edge list with a non-empty value list the
code dereferences `buckets[-1]` and throws, so no bucket list whose counts sum
to the number of values is returned. -/
theorem C2_counterexample : buildBuckets [1] [] = none := by decide

/-- C2, witness: three values against edges `[0, 50]` — one in `0-49`, one
below every edge (landing in the open-ended last bucket via the `-1`
fallback), one above — sum to 3. -/
theorem C2_witness :
    ∃ bs, buildBuckets [3, -7, 60] [0, 50] = some bs ∧
      (bs.map (fun b => b.count)).sum = ([3, -7, 60] : List Int).length :=
  C2_bucket_counts_sum_to_values_length.1 [3, -7, 60] [0, 50] (by decide)

/-- C3, counterexample: a page response whose `errors` field is present but an
*empty* array still aborts the fetch — `if (json.errors)` is truthy on `[]` —
refuting "throws iff the error array is non-empty". -/
theorem C3_counterexample :
    fetchAllCustomers [{ errors := some [], nodes := [], hasNextPage := false }] =
      .error "" ∧
    ({ errors := some [], nodes := [], hasNextPage := false } : CustomerPage).errors =
      some [] := by
  constructor
  · rfl
  · rfl

/-- C3 (amended): processing a page response throws exactly when the response
carries an `errors` field at all (even an empty array, which is truthy);
responses without an `errors` field never throw. -/
theorem C3_throw_iff_errors_present (p : CustomerPage) :
    (∃ e, fetchAllCustomers [p] = .error e) ↔ p.errors ≠ none := by
  cases hpe : p.errors with
  | none =>
    simp [fetchAllCustomers, runCustomerPages, initFetchState, MAX_CUSTOMERS, hpe]
  | some errs =>
    simp [fetchAllCustomers, runCustomerPages, initFetchState, MAX_CUSTOMERS, hpe]

/-- C3, witness: a page with a non-empty error array makes the fetch throw. -/
theorem C3_witness :
    ∃ e, fetchAllCustomers
      [{ errors := some ["boom"], nodes := [], hasNextPage := false }] = .error e :=
  (C3_throw_iff_errors_present
    { errors := some ["boom"], nodes := [], hasNextPage := false }).mpr (by decide)

/-- C4: an order whose customer has no resolvable first-order timestamp but a
lifetime order count of exactly 1 sets the fallback flag, and — when the
customer is not yet recorded — appends it as a new customer whose first-order
date is the current order's creation instant. -/
theorem C4_fallback_counts_customer_as_new
    (startT endT : Int) (s : ScanState) (o : OrderNode) (c : CustomerNode)
    (hc : o.customer = some c) (hid : c.id ≠ "")
    (hfo : c.firstOrderCreatedAt = none) (hn : ordersCountOf c = 1) :
    (processOrder startT endT s o).usedFallback = true ∧
    (hasNewCustomer s.newCustomers c.id = false →
      (processOrder startT endT s o).newCustomers =
        s.newCustomers ++
          [{ id := c.id, name := nameOf c, email := emailOf c,
             firstOrderDate := o.createdAt, totalSpent := amountOf c,
             ordersCount := ordersCountOf c }]) := by
  simp only [processOrder, hc, hfo, hn]
  rw [if_neg hid, if_pos trivial]
  constructor
  · unfold addNewCustomer
    split <;> rfl
  · intro hfresh
    unfold addNewCustomer
    rw [if_neg (by simp [hfresh])]

/-- C4, witness: the sample order at instant 5 inside window `[0, 10]`. -/
theorem C4_witness :
    (processOrder 0 10 initScanState sampleFallbackOrder).usedFallback = true ∧
    (processOrder 0 10 initScanState sampleFallbackOrder).newCustomers =
      [{ id := "c1", name := "Ada", email := "-", firstOrderDate := 5,
         totalSpent := 0, ordersCount := 1 }] := by
  have h := C4_fallback_counts_customer_as_new 0 10 initScanState
    sampleFallbackOrder sampleFallbackCustomer rfl (by decide) rfl rfl
  exact ⟨h.1, (h.2 rfl).trans (by decide)⟩

/-- Helper: inserting is a permutation of consing. -/
theorem insertLe_perm {α : Type} (le : α → α → Bool) (x : α) (l : List α) :
    (insertLe le x l).Perm (x :: l) := by
  induction l with
  | nil => exact List.Perm.refl _
  | cons y ys ih =>
    simp only [insertLe]
    split
    · exact (ih.cons y).trans (List.Perm.swap x y ys)
    · exact List.Perm.refl _

/-- Helper: the insertion fold permutes the accumulator followed by the
remaining input. -/
theorem stableSortAux_perm {α : Type} (le : α → α → Bool) :
    ∀ (l acc : List α),
      (l.foldl (fun acc x => insertLe le x acc) acc).Perm (acc ++ l) := by
  intro l
  induction l with
  | nil => intro acc; simp
  | cons x xs ih =>
    intro acc
    simp only [List.foldl_cons]
    refine (ih (insertLe le x acc)).trans ?_
    refine ((insertLe_perm le x acc).append_right xs).trans ?_
    exact List.perm_middle.symm

/-- Helper: `stableSort` permutes its input. -/
theorem stableSort_perm {α : Type} (le : α → α → Bool) (l : List α) :
    (stableSort le l).Perm l := by
  simpa using stableSortAux_perm le l []

/-- Helper: inserting into a pairwise-ordered list keeps it pairwise ordered,
given transitivity and totality. -/
theorem insertLe_pairwise {α : Type} (le : α → α → Bool)
    (htrans : ∀ a b c, le a b = true → le b c = true → le a c = true)
    (htot : ∀ a b, le a b = true ∨ le b a = true) (x : α) :
    ∀ l : List α, l.Pairwise (fun a b => le a b = true) →
      (insertLe le x l).Pairwise (fun a b => le a b = true) := by
  intro l
  induction l with
  | nil => intro _; simp [insertLe]
  | cons y ys ih =>
    intro hl
    rw [List.pairwise_cons] at hl
    obtain ⟨hy, hys⟩ := hl
    simp only [insertLe]
    split
    · rename_i hyx
      rw [List.pairwise_cons]
      refine ⟨?_, ih hys⟩
      intro z hz
      rcases List.mem_cons.mp ((insertLe_perm le x ys).mem_iff.mp hz) with hz' | hz'
      · subst hz'; exact hyx
      · exact hy z hz'
    · rename_i hyx
      have hxy : le x y = true := (htot x y).resolve_right hyx
      rw [List.pairwise_cons]
      refine ⟨?_, List.pairwise_cons.mpr ⟨hy, hys⟩⟩
      intro z hz
      rcases List.mem_cons.mp hz with hz' | hz'
      · subst hz'; exact hxy
      · exact htrans x y z hxy (hy z hz')

/-- Helper: the insertion fold preserves pairwise order of the accumulator. -/
theorem stableSortAux_pairwise {α : Type} (le : α → α → Bool)
    (htrans : ∀ a b c, le a b = true → le b c = true → le a c = true)
    (htot : ∀ a b, le a b = true ∨ le b a = true) :
    ∀ (l acc : List α), acc.Pairwise (fun a b => le a b = true) →
      (l.foldl (fun acc x => insertLe le x acc) acc).Pairwise
        (fun a b => le a b = true) := by
  intro l
  induction l with
  | nil => intro acc h; simpa using h
  | cons x xs ih =>
    intro acc hacc
    simp only [List.foldl_cons]
    exact ih _ (insertLe_pairwise le htrans htot x acc hacc)

/-- Helper: `stableSort` output is pairwise ordered. -/
theorem stableSort_pairwise {α : Type} (le : α → α → Bool)
    (htrans : ∀ a b c, le a b = true → le b c = true → le a c = true)
    (htot : ∀ a b, le a b = true ∨ le b a = true) (l : List α) :
    (stableSort le l).Pairwise (fun a b => le a b = true) :=
  stableSortAux_pairwise le htrans htot l [] (by simp)

/-- Helper: the boolean comparator relation coincides with the described
lexicographic key order. -/
theorem sortLe_iff (k : SortKey) (a b : ReportCustomer) :
    sortLe k a b = true ↔ keyOrder k a b := by
  cases k <;>
    simp only [sortLe, sortComparator, keyOrder, decide_eq_true_eq] <;>
    split <;> omega

/-- C5: for every customer list and sort key, `sortCustomers` returns a
permutation of its input ordered by the primary metric in the requested
direction with ties broken by the other metric in the same direction; on the
spec's example it yields `[{500,5}, {500,1}, {100,2}]`. -/
theorem C5_sortCustomers_orders_and_breaks_ties :
    (∀ (k : SortKey) (l : List ReportCustomer),
      (sortCustomers l k).Perm l ∧ List.Sorted (keyOrder k) (sortCustomers l k)) ∧
    sortCustomers
        [plainCustomer 100 2, plainCustomer 500 1, plainCustomer 500 5] .ltv_desc =
      [plainCustomer 500 5, plainCustomer 500 1, plainCustomer 100 2] := by
  constructor
  · intro k l
    have htrans : ∀ a b c : ReportCustomer,
        sortLe k a b = true → sortLe k b c = true → sortLe k a c = true := by
      intro a b c hab hbc
      rw [sortLe_iff] at hab hbc ⊢
      cases k <;> simp only [keyOrder] at hab hbc ⊢ <;> omega
    have htot : ∀ a b : ReportCustomer,
        sortLe k a b = true ∨ sortLe k b a = true := by
      intro a b
      rw [sortLe_iff, sortLe_iff]
      cases k <;> simp only [keyOrder] <;> omega
    refine ⟨stableSort_perm _ l, ?_⟩
    have hp := stableSort_pairwise (sortLe k) htrans htot l
    exact hp.imp (fun h => (sortLe_iff k _ _).mp h)
  · decide

/-- C6: starting from the empty list, any insertion sequence leaves the
top-customers list sorted descending by `totalSpent` with length at most
10. -/
theorem C6_topCustomers_sorted_and_bounded (candidates : List TopCustomer) :
    List.Sorted spendDescOrder (candidates.foldl insertTopCustomer []) ∧
    (candidates.foldl insertTopCustomer []).length ≤ 10 := by
  have htrans : ∀ a b c : TopCustomer,
      spentDescLe a b = true → spentDescLe b c = true → spentDescLe a c = true := by
    intro a b c h1 h2
    simp only [spentDescLe, decide_eq_true_eq] at h1 h2 ⊢
    omega
  have htot : ∀ a b : TopCustomer,
      spentDescLe a b = true ∨ spentDescLe b a = true := by
    intro a b
    simp only [spentDescLe, decide_eq_true_eq]
    omega
  have hins : ∀ (l : List TopCustomer) (c : TopCustomer),
      List.Sorted spendDescOrder (insertTopCustomer l c) ∧
        (insertTopCustomer l c).length ≤ 10 := by
    intro l c
    constructor
    · have hp := stableSort_pairwise spentDescLe htrans htot (l ++ [c])
      have hq := List.Pairwise.sublist (List.take_sublist 10 _) hp
      exact hq.imp (fun h => of_decide_eq_true h)
    · simp only [insertTopCustomer, List.length_take]
      omega
  have hfold : ∀ (cs acc : List TopCustomer),
      List.Sorted spendDescOrder acc ∧ acc.length ≤ 10 →
      List.Sorted spendDescOrder (cs.foldl insertTopCustomer acc) ∧
        (cs.foldl insertTopCustomer acc).length ≤ 10 := by
    intro cs
    induction cs with
    | nil => intro acc h; simpa using h
    | cons c cs ih =>
      intro acc _
      simp only [List.foldl_cons]
      exact ih _ (hins acc c)
  exact hfold candidates [] ⟨List.sorted_nil, by simp⟩

/-- Helper: doubling quotes yields the empty list only on the empty list. -/
theorem doubleQuotes_eq_nil_iff (l : List Char) :
    doubleQuotes l = [] ↔ l = [] := by
  cases l with
  | nil => simp [doubleQuotes]
  | cons c r =>
    simp only [doubleQuotes]
    split <;> simp

/-- Helper: un-doubling inverts doubling. -/
theorem undouble_double (l : List Char) :
    undoubleQuotes (doubleQuotes l) = l := by
  induction l with
  | nil => rfl
  | cons c rest ih =>
    by_cases hc : c = '"'
    · subst hc
      simp only [doubleQuotes, if_pos rfl]
      simp [undoubleQuotes, ih]
    · simp only [doubleQuotes, if_neg hc]
      cases hrest : doubleQuotes rest with
      | nil =>
        have h0 : rest = [] := (doubleQuotes_eq_nil_iff rest).mp hrest
        subst h0
        rfl
      | cons d t =>
        simp only [undoubleQuotes]
        rw [if_neg (fun h => hc h.1), ← hrest, ih]

/-- Helper: the field is quoted exactly when it contains a comma, quote or
newline. -/
theorem escapeCsv_quoted_iff (l : List Char) :
    l.any isBadChar = true ↔ escapeCsv l = '"' :: (doubleQuotes l ++ ['"']) := by
  constructor
  · intro h
    simp [escapeCsv, h]
  · intro h
    by_cases hbad : l.any isBadChar = true
    · exact hbad
    · exfalso
      have hl : escapeCsv l = l := by
        simp [escapeCsv, hbad]
      rw [hl] at h
      have hq : '"' ∈ l := by
        rw [h]
        exact List.mem_cons_self _ _
      exact hbad (List.any_eq_true.mpr ⟨'"', hq, rfl⟩)

/-- Helper: re-parsing the escaped field recovers the original. -/
theorem unescape_escape (l : List Char) :
    unescapeCsv (escapeCsv l) = l := by
  by_cases hbad : l.any isBadChar = true
  · simp only [escapeCsv, if_pos hbad]
    unfold unescapeCsv
    rw [if_pos ?hguard]
    case hguard =>
      refine ⟨?_, rfl, ?_⟩
      · simp only [List.length_cons, List.length_append, List.length_cons,
          List.length_nil]
        omega
      · show (('"' :: doubleQuotes l) ++ ['"']).getLast? = some '"'
        exact List.getLast?_concat _
    show undoubleQuotes ((doubleQuotes l ++ ['"']).dropLast) = l
    rw [show doubleQuotes l ++ ['"'] = doubleQuotes l ++ ['"'] from rfl,
      List.dropLast_concat]
    exact undouble_double l
  · simp only [escapeCsv, if_neg hbad]
    unfold unescapeCsv
    rw [if_neg]
    rintro ⟨hlen, hhead, hlast⟩
    have hq : '"' ∈ l := by
      cases l with
      | nil => simp at hhead
      | cons a t =>
        simp only [List.head?_cons, Option.some.injEq] at hhead
        subst hhead
        exact List.mem_cons_self _ _
    exact hbad (List.any_eq_true.mpr ⟨'"', hq, rfl⟩)

/-- C7: `escapeCsv` quotes a field (with internal quotes doubled) exactly when
it contains a comma, quote or newline; un-escaping the produced field yields
the original string; and the example `O'Brien, Jr. "VIP"` escapes to the
single quoted field `"O'Brien, Jr. ""VIP"""` and round-trips. -/
theorem C7_escapeCsv_quoting_and_round_trip :
    (∀ l : List Char,
      l.any isBadChar = true ↔ escapeCsv l = '"' :: (doubleQuotes l ++ ['"'])) ∧
    (∀ l : List Char, unescapeCsv (escapeCsv l) = l) ∧
    escapeCsv exampleName = exampleEscaped ∧
    unescapeCsv exampleEscaped = exampleName := by
  refine ⟨escapeCsv_quoted_iff, unescape_escape, by decide, by decide⟩

/-- C8: with every other parameter equal, a customer surviving the tag filter
in `all` mode also survives it in `any` mode. -/
theorem C8_tags_all_subset_any (p : FilterParams)
    (customers : List ReportCustomer) (c : ReportCustomer)
    (hmem : c ∈ customers.filter (passesFilter { p with tagsMode := .all })) :
    c ∈ customers.filter (passesFilter { p with tagsMode := .any }) := by
  rw [List.mem_filter] at hmem ⊢
  refine ⟨hmem.1, ?_⟩
  have hp := hmem.2
  simp only [passesFilter, Bool.and_eq_true] at hp ⊢
  obtain ⟨⟨⟨⟨⟨⟨⟨h1, h2⟩, h3⟩, h4⟩, h5⟩, h6⟩, h7⟩, h8⟩ := hp
  refine ⟨⟨⟨⟨⟨⟨⟨h1, h2⟩, h3⟩, h4⟩, h5⟩, ?_⟩, h7⟩, h8⟩
  rcases (Bool.or_eq_true _ _).mp h6 with he | hall
  · exact (Bool.or_eq_true _ _).mpr (Or.inl he)
  · by_cases hni : p.tagsList = []
    · refine (Bool.or_eq_true _ _).mpr (Or.inl ?_)
      simp [hni]
    · refine (Bool.or_eq_true _ _).mpr (Or.inr ?_)
      obtain ⟨t, ht⟩ := List.exists_mem_of_ne_nil p.tagsList hni
      exact List.any_eq_true.mpr ⟨t, ht, List.all_eq_true.mp hall t ht⟩

/-- C8, witness: a customer tagged `v` surviving the `all` filter for tag `v`
also survives the `any` filter. -/
theorem C8_witness :
    sampleTagCustomer ∈
      [sampleTagCustomer].filter
        (passesFilter { sampleTagParams with tagsMode := .any }) :=
  C8_tags_all_subset_any sampleTagParams [sampleTagCustomer] sampleTagCustomer
    (by decide)

/-- Helper: the currency update takes the carried code if any. -/
theorem updateCurrency_eq (cur : String) (c : CustomerNode) :
    updateCurrency cur c = (carriedCurrency c).getD cur := by
  unfold updateCurrency carriedCurrency
  cases c.amountSpent with
  | none => rfl
  | some m =>
    by_cases h : m.currencyCode = "" <;> simp [h]

/-- Helper: default-valued last element of a cons. -/
theorem getLastD_cons {α : Type} (l : List α) :
    ∀ a d : α, (a :: l).getLast?.getD d = l.getLast?.getD a := by
  induction l with
  | nil => intro a d; rfl
  | cons b t ih =>
    intro a d
    rw [List.getLast?_cons_cons, ih b d, ih b a]

/-- Helper: default-valued last element of an append. -/
theorem getLastD_append {α : Type} (l1 l2 : List α) :
    ∀ d : α,
      ((l1 ++ l2).getLast?).getD d = (l2.getLast?).getD ((l1.getLast?).getD d) := by
  induction l1 with
  | nil => intro d; simp
  | cons a t ih =>
    intro d
    rw [List.cons_append, getLastD_cons, ih, getLastD_cons]

/-- Helper: folding the per-customer body updates the currency code to the
last non-empty code carried by the nodes, keeping the old one if none. -/
theorem foldCurrency (nodes : List CustomerNode) :
    ∀ s : FetchState,
      (nodes.foldl processCustomer s).currencyCode =
        ((nodes.filterMap carriedCurrency).getLast?).getD s.currencyCode := by
  induction nodes with
  | nil => intro s; rfl
  | cons c t ih =>
    intro s
    rw [List.foldl_cons, ih]
    have hpc : (processCustomer s c).currencyCode =
        (carriedCurrency c).getD s.currencyCode := updateCurrency_eq _ _
    rw [hpc]
    cases hcc : carriedCurrency c with
    | none => simp [List.filterMap_cons, hcc]
    | some v =>
      simp only [List.filterMap_cons, hcc, Option.getD_some]
      rw [getLastD_cons]

/-- Helper: a successful run reports as currency code the last non-empty code
among the customers it processed, defaulting to the initial one. -/
theorem runPages_currency :
    ∀ (pages : List CustomerPage) (s : FetchState) (r : FetchResult),
      runCustomerPages pages s = .ok r →
      r.currencyCode =
        (((processedCustomers pages s).filterMap carriedCurrency).getLast?).getD
          s.currencyCode := by
  intro pages
  induction pages with
  | nil =>
    intro s r h
    simp only [runCustomerPages] at h
    injection h with h
    subst h
    rfl
  | cons p rest ih =>
    intro s r h
    simp only [runCustomerPages] at h
    by_cases hg : (s.hasNextPage ∧ s.customersCount < MAX_CUSTOMERS)
    · rw [if_pos hg] at h
      cases hpe : p.errors with
      | some errs =>
        rw [hpe] at h
        simp at h
      | none =>
        rw [hpe] at h
        have hrec := ih (stepPage s p) r h
        simp only [processedCustomers, if_pos hg, hpe]
        rw [hrec]
        have hstep : (stepPage s p).currencyCode =
            ((p.nodes.filterMap carriedCurrency).getLast?).getD s.currencyCode := by
          rw [show (stepPage s p).currencyCode =
              (p.nodes.foldl processCustomer s).currencyCode from rfl]
          exact foldCurrency p.nodes s
        rw [hstep, List.filterMap_append, getLastD_append]
    · rw [if_neg hg] at h
      injection h with h
      subst h
      simp only [processedCustomers, if_neg hg]
      rfl

/-- C9: when the paginated customer fetch succeeds, the reported currency code
is that of the last processed customer carrying a non-empty currency code, and
`"USD"` when none does. -/
theorem C9_currency_is_last_nonempty_carried (pages : List CustomerPage)
    (r : FetchResult) (h : fetchAllCustomers pages = .ok r) :
    r.currencyCode =
      (((processedCustomers pages initFetchState).filterMap
        carriedCurrency).getLast?).getD "USD" :=
  runPages_currency pages initFetchState r h

/-- C9, witness: one page whose only customer carries `EUR`. -/
theorem C9_witness :
    sampleResultEUR.currencyCode =
      (((processedCustomers [samplePageEUR] initFetchState).filterMap
        carriedCurrency).getLast?).getD "USD" :=
  C9_currency_is_last_nonempty_carried [samplePageEUR] sampleResultEUR (by rfl)

/-- Helper: any successful run returns the finalisation of some loop state. -/
theorem runPages_ok_finalize :
    ∀ (pages : List CustomerPage) (s : FetchState) (r : FetchResult),
      runCustomerPages pages s = .ok r → ∃ t, r = finalize t := by
  intro pages
  induction pages with
  | nil =>
    intro s r h
    simp only [runCustomerPages] at h
    injection h with h
    exact ⟨s, h.symm⟩
  | cons p rest ih =>
    intro s r h
    simp only [runCustomerPages] at h
    by_cases hg : (s.hasNextPage ∧ s.customersCount < MAX_CUSTOMERS)
    · rw [if_pos hg] at h
      cases hpe : p.errors with
      | some errs =>
        rw [hpe] at h
        simp at h
      | none =>
        rw [hpe] at h
        exact ih _ r h
    · rw [if_neg hg] at h
      injection h with h
      exact ⟨s, h.symm⟩

/-- C10: when the paginated customer fetch succeeds, `averageClv` is
`totalClv / customersCount` for a positive count and `0` for a zero count —
the division is never taken with a zero divisor. -/
theorem C10_averageClv_division_guarded (pages : List CustomerPage)
    (r : FetchResult) (h : fetchAllCustomers pages = .ok r) :
    (r.customersCount ≠ 0 →
      r.averageClv = (r.totalClv : Rat) / (r.customersCount : Rat)) ∧
    (r.customersCount = 0 → r.averageClv = 0) := by
  obtain ⟨t, rfl⟩ := runPages_ok_finalize pages initFetchState r h
  constructor
  · intro hne
    simp only [finalize] at hne ⊢
    rw [if_pos hne]
  · intro h0
    simp only [finalize] at h0 ⊢
    rw [if_neg (by omega)]

/-- C10, witness: two customers spending 4 and 5 average to 9/2. -/
theorem C10_witness :
    sampleResultHalf.averageClv =
      (sampleResultHalf.totalClv : Rat) / (sampleResultHalf.customersCount : Rat) :=
  (C10_averageClv_division_guarded [samplePageHalf] sampleResultHalf
    (by rfl)).1 (by decide)
